import Mathlib

/-!
Verification of the treasure-hunt resolver (`src/main.go`).

The Go program resolves, for a team in a scavenger hunt, the URL of the
next challenge given the numeric identifier of the challenge just
completed.  The core logic lives in four functions, embedded here:

* `findTeamPage`        — tiered team lookup (`src/main.go:206-255`)
* `getTeamChallenges`   — sequence extraction (`src/main.go:258-300`)
* `findNextChallengeURL`— successor resolution + locator (`src/main.go:303-363`)
* `parseFloat`          — `fmt.Sscanf(s, "%f", &f)` wrapper (`src/main.go:365-369`)

Modelling conventions:

* The external Notion store is an oracle: a `Store` is a bundle of
  functions, one per API call shape the program issues.  Errors carry no
  payload (`Except Unit`), since the code only ever branches on
  `err != nil`.
* A Notion page's property map is an association list
  `List (String × PropValue)`; Go map iteration order is the list order,
  and claims about order independence quantify over permutations.
* Numeric ("Number") property values are modelled by their exact integer
  values: every identifier in this system is an integer-valued float64
  (the spec's round-trip property), and `fmt.Sprintf("%.0f", v)` on an
  integer-valued float64 prints exactly its decimal integer string.
  Go `int` (the `Challenge%d` scan target) is modelled as unbounded `Int`.
* `fmt.Sscanf(s, "%f", &f)` parses sign, digits, an optional fraction and
  an optional exponent, ignoring trailing input; the parsed value is
  modelled exactly in `ℚ`.
* Go functions that both return a value and perform store queries are
  embedded as functions returning the value *and* the list of queries
  issued, so that "issues no query" / "retries exactly once" are
  statable.
-/

/-- A typed Notion property value, restricted to the kinds the core
inspects: title, rich text, number, relation; everything else is
`other`. -/
inductive PropValue where
  | title (texts : List String)
  | richText (texts : List String)
  | number (value : Int)
  | relation (ids : List String)
  | other
deriving DecidableEq

/-- A Notion page: an opaque store identifier plus an association list of
named, typed properties (the list order stands for Go's map iteration
order). -/
structure Page where
  id : String
  properties : List (String × PropValue)
deriving DecidableEq

/-- The external store oracle.  One field per API call shape issued by the
Go code: `Page.Get`, the rich-text equality filter query on the Teams DB,
the unfiltered page-size-bounded query on the Teams DB, and the number
equality filter query on the Challenges DB. -/
structure Store where
  pageGet : String → Except Unit Page
  queryTeamsFilter : String → String → Except Unit (List Page)
  queryTeamsAll : Nat → Except Unit (List Page)
  queryChallenges : String → ℚ → Except Unit (List Page)

/-- Look up a property by name in a page's property map (Go:
`page.Properties[name]`). -/
def lookupProp (props : List (String × PropValue)) (name : String) : Option PropValue :=
  (props.find? fun p => decide (p.1 = name)).map (·.2)

/-- Lookup in the `map[int]string` of challenges (Go: `challenges[k]`). -/
def mapLookup (m : List (Int × String)) (k : Int) : Option String :=
  (m.find? fun p => decide (p.1 = k)).map (·.2)

/-- Insertion into the `map[int]string` of challenges (Go:
`challenges[k] = v`, overwrite semantics). -/
def mapInsert (m : List (Int × String)) (k : Int) (v : String) : List (Int × String) :=
  (k, v) :: m.filter fun p => decide (p.1 ≠ k)

/-- Little-endian base-10 digits of `n`, with explicit structural fuel
(`digitsAux n n` yields the digits of `n`, most significant last). -/
def digitsAux : Nat → Nat → List Nat
  | 0, _ => []
  | fuel + 1, n => if n = 0 then [] else n % 10 :: digitsAux fuel (n / 10)

/-- Value of a little-endian digit list. -/
def decValue (L : List Nat) : Nat :=
  L.foldr (fun d acc => d + 10 * acc) 0

/-- Decimal rendering of a natural number. -/
def natToDec (n : Nat) : String :=
  if n = 0 then "0" else String.mk ((digitsAux n n).reverse.map Nat.digitChar)

/-- Embeds `fmt.Sprintf("%.0f", v)` for an integer-valued float64 `v`:
the exact decimal integer string (`src/main.go:282,290`). -/
def fmtDot0 (x : Int) : String :=
  if x < 0 then "-" ++ natToDec x.natAbs else natToDec x.natAbs

/-- Value of a big-endian list of digit characters (the accumulator loop
of a decimal scanner). -/
def digitsVal (ds : List Char) : Nat :=
  ds.foldl (fun a c => 10 * a + (c.toNat - 48)) 0

/-- Whitespace skipped by `fmt.Sscanf` scanning verbs inside a line. -/
def isScanSpace (c : Char) : Bool :=
  decide (c = ' ' ∨ c = '\t')

/-- Maximal leading digit run as a natural number; `none` when there is no
leading digit (Go's scanner requires at least one digit). -/
def parseNatDigits (cs : List Char) : Option Nat :=
  match cs.takeWhile Char.isDigit with
  | [] => none
  | ds => some (digitsVal ds)

/-- An optionally signed decimal integer at the head of `cs` (the `%d`
verb after whitespace skipping, and the exponent of `%f`). -/
def parseSignedDigits (cs : List Char) : Option Int :=
  match cs with
  | '-' :: rest => (parseNatDigits rest).map fun n => -(n : Int)
  | '+' :: rest => (parseNatDigits rest).map fun n => (n : Int)
  | _ => (parseNatDigits cs).map fun n => (n : Int)

/-- Split an optional leading sign: returns (isNegative, remainder). -/
def splitSign (cs : List Char) : Bool × List Char :=
  match cs with
  | c :: rest =>
    if c = '-' then (true, rest)
    else if c = '+' then (false, rest)
    else (false, cs)
  | [] => (false, [])

/-- Split an optional fraction part `.digits`: returns (fraction digits,
remainder). -/
def fracSplit (afterInt : List Char) : List Char × List Char :=
  match afterInt with
  | c :: rest =>
    if c = '.' then (rest.takeWhile Char.isDigit, rest.dropWhile Char.isDigit)
    else ([], afterInt)
  | [] => ([], [])

/-- Exact value of a decimal mantissa `intDigits.fracDigits`. -/
def mantissaVal (intDigits fracDigits : List Char) : ℚ :=
  (digitsVal intDigits : ℚ) + (digitsVal fracDigits : ℚ) / (10 : ℚ) ^ fracDigits.length

/-- Apply an optional exponent part `e±digits` to a mantissa. -/
def applyExp (mantissa : ℚ) (afterFrac : List Char) : Option ℚ :=
  match afterFrac with
  | c :: rest =>
    if c = 'e' ∨ c = 'E' then
      (parseSignedDigits rest).map fun e => mantissa * (10 : ℚ) ^ e
    else some mantissa
  | [] => some mantissa

/-- Final stage of the float scanner, after sign, integer digits and
fraction digits have been split off. -/
def parseAfterFrac (isNeg : Bool) (intDigits fracDigits afterFrac : List Char) : Option ℚ :=
  if intDigits = [] ∧ fracDigits = [] then none
  else (applyExp (mantissaVal intDigits fracDigits) afterFrac).map
    fun v => if isNeg then -v else v

/-- Float scanner stage after the integer-digit run has been split off. -/
def parseAfterInt (isNeg : Bool) (intDigits afterInt : List Char) : Option ℚ :=
  parseAfterFrac isNeg intDigits (fracSplit afterInt).1 (fracSplit afterInt).2

/-- Float scanner stage after the sign has been split off. -/
def parseAfterSign (isNeg : Bool) (cs : List Char) : Option ℚ :=
  parseAfterInt isNeg (cs.takeWhile Char.isDigit) (cs.dropWhile Char.isDigit)

/-- Scan a float token from a character list: optional sign, digits,
optional fraction, optional exponent; trailing input is ignored. -/
def parseFloatChars (cs : List Char) : Option ℚ :=
  parseAfterSign (splitSign cs).1 (splitSign cs).2

/-- Embeds `parseFloat` (`src/main.go:365-369`): `fmt.Sscanf(s, "%f", &f)`
with the scanned value modelled exactly in `ℚ`; `none` models a scan
error, in which case the Go variable `f` keeps its zero value. -/
def parseFloat (s : String) : Option ℚ :=
  parseFloatChars (s.data.dropWhile isScanSpace)

/-- Match a literal character prefix, returning the remainder on
success. -/
def dropPrefixChars : List Char → List Char → Option (List Char)
  | [], cs => some cs
  | _ :: _, [] => none
  | p :: ps, c :: cs => if c = p then dropPrefixChars ps cs else none

/-- Embeds `fmt.Sscanf(propName, "Challenge%d", &challengeNum)`
(`src/main.go:272`): the literal prefix `Challenge`, then the `%d` verb
(skip spaces, optional sign, at least one digit, maximal digit run),
ignoring any trailing characters. `none` models a scan error. -/
def scanChallengeNum (propName : String) : Option Int :=
  match dropPrefixChars "Challenge".data propName.data with
  | some rest => parseSignedDigits (rest.dropWhile isScanSpace)
  | none => none

/-- The fixed preference order of candidate title-property names tried by
`findTeamPage` (`src/main.go:210`). -/
def tieredPropertyNames : List String :=
  ["Name", "Team", "Title", "title"]

/-- The tiered loop of `findTeamPage` (`src/main.go:212-226`): for each
candidate property name issue a rich-text equality filter query; on the
first query that succeeds with at least one result, return the first
record's identifier; a query error or an empty result means "try the
next candidate". -/
def tryTieredQueries (store : Store) (teamName : String) : List String → Option String
  | [] => none
  | prop :: rest =>
    match store.queryTeamsFilter prop teamName with
    | .ok (r :: _) => some r.id
    | _ => tryTieredQueries store teamName rest

/-- One page of the full-scan fallback (`src/main.go:239-252`): does any
property of the page hold a title-type or rich-text-type value whose
first text equals `teamName` exactly? -/
def pageTitleMatches (teamName : String) (page : Page) : Bool :=
  page.properties.any fun pr =>
    match pr.2 with
    | .title (t :: _) => decide (t = teamName)
    | .richText (t :: _) => decide (t = teamName)
    | _ => false

/-- Embeds `findTeamPage` (`src/main.go:206-255`): tiered filter queries
in the fixed order, then an unfiltered scan bounded to the first 100
records; `.ok ""` is the not-found outcome (Go returns `("", nil)`), and
only a full-scan query error propagates as `.error`. -/
def findTeamPage (store : Store) (teamName : String) : Except Unit String :=
  match tryTieredQueries store teamName tieredPropertyNames with
  | some pid => .ok pid
  | none =>
    match store.queryTeamsAll 100 with
    | .error e => .error e
    | .ok pages =>
      match pages.find? (pageTitleMatches teamName) with
      | some page => .ok page.id
      | none => .ok ""

/-- Read of the numeric identifier of a fetched challenge page: property
`id` if it is a number property, else property `ID` if it is a number
property, else nothing (`src/main.go:279-293`). -/
def readChallengeId (cp : Page) : Option Int :=
  match lookupProp cp.properties "id" with
  | some (.number v) => some v
  | _ =>
    match lookupProp cp.properties "ID" with
    | some (.number v) => some v
    | _ => none

/-- The body of the property loop of `getTeamChallenges`
(`src/main.go:269-297`), acting on the accumulated challenges map `m`:
scan the property name as `Challenge%d`; on a match, if the property is
a relation with at least one target, fetch the first linked page; on a
successful fetch, store the `id` number (stringified with `%.0f`) under
the scanned key, and if the map still has no entry under that key, fall
back to the `ID` number.  Every failure leaves `m` unchanged. -/
def afterIdRead (m : List (Int × String)) (challengeNum : Int)
    (challengePage : Page) : List (Int × String) :=
  match lookupProp challengePage.properties "id" with
  | some (.number v) => mapInsert m challengeNum (fmtDot0 v)
  | _ => m

/-- The capital-`ID` fallback of the loop body (`src/main.go:285-293`),
applied to the map state `m1` left by the lower-case read: only when the
map still has no entry under `challengeNum` is the `ID` property read. -/
def afterIdFallback (m1 : List (Int × String)) (challengeNum : Int)
    (challengePage : Page) : List (Int × String) :=
  match mapLookup m1 challengeNum with
  | some _ => m1
  | none =>
    match lookupProp challengePage.properties "ID" with
    | some (.number v) => mapInsert m1 challengeNum (fmtDot0 v)
    | _ => m1

def processProp (store : Store) (m : List (Int × String))
    (propName : String) (prop : PropValue) : List (Int × String) :=
  match scanChallengeNum propName with
  | none => m
  | some challengeNum =>
    match prop with
    | .relation (challengePageID :: _) =>
      match store.pageGet challengePageID with
      | .error _ => m
      | .ok challengePage =>
        afterIdFallback (afterIdRead m challengeNum challengePage) challengeNum challengePage
    | _ => m

/-- The property loop of `getTeamChallenges` over a fetched team page. -/
def extractChallenges (store : Store) (page : Page) : List (Int × String) :=
  page.properties.foldl (fun m pr => processProp store m pr.1 pr.2) []

/-- Embeds `getTeamChallenges` (`src/main.go:258-300`): fetch the team
page (an error here propagates), then run the property loop. -/
def getTeamChallenges (store : Store) (teamPageID : String) :
    Except Unit (List (Int × String)) :=
  match store.pageGet teamPageID with
  | .error e => .error e
  | .ok page => .ok (extractChallenges store page)

/-- The position-lookup loop of `findNextChallengeURL`
(`src/main.go:305-311`): the first position (in iteration order) whose
stored identifier equals `currentID`, defaulting to 0 when none
matches. -/
def findCurrentPos (challenges : List (Int × String)) (currentID : String) : Int :=
  match challenges.find? fun p => decide (p.2 = currentID) with
  | some p => p.1
  | none => 0

/-- The next-position resolution inside `findNextChallengeURL`
(`src/main.go:313-315`): the identifier stored at `currentPos + 1`, if
that position is a key of the map. -/
def findNextID (challenges : List (Int × String)) (currentID : String) : Option String :=
  mapLookup challenges (findCurrentPos challenges currentID + 1)

/-- The fixed collaborator-site base path (`src/main.go:358`). -/
def notionBaseURL : String :=
  "https://marcbaumholz.notion.site/"

/-- Hyphen stripping of a store identifier (`src/main.go:352-357`). -/
def stripHyphens (s : String) : String :=
  String.mk (s.data.filter fun c => decide (c ≠ '-'))

/-- The number filter value sent to the Challenges DB
(`src/main.go:324-327`): `parseFloat(nextID)` with the error ignored, so
a failed parse leaves the zero value. -/
def chalFilterValue (nextID : String) : ℚ :=
  (parseFloat nextID).getD 0

/-- The locator part of `findNextChallengeURL` (`src/main.go:315-362`):
query the Challenges DB with a number equality filter on property `id`;
if that errors or returns no record, retry once with property `ID`; on a
hit, return the base URL concatenated with the hyphen-stripped store
identifier of the first record, else the empty string.  The second
component lists the queries issued, in order. -/
def locateChallenge (store : Store) (nextID : String) : String × List (String × ℚ) :=
  match store.queryChallenges "id" (chalFilterValue nextID) with
  | .ok (r :: _) =>
    (notionBaseURL ++ stripHyphens r.id, [("id", chalFilterValue nextID)])
  | _ =>
    match store.queryChallenges "ID" (chalFilterValue nextID) with
    | .ok (r :: _) =>
      (notionBaseURL ++ stripHyphens r.id,
        [("id", chalFilterValue nextID), ("ID", chalFilterValue nextID)])
    | _ => ("", [("id", chalFilterValue nextID), ("ID", chalFilterValue nextID)])

/-- Embeds `findNextChallengeURL` (`src/main.go:303-363`), paired with
the list of Challenges-DB queries it issues: resolve the next position;
when no next position exists, return the empty string without querying
the store; otherwise run the locator. -/
def findNextChallengeURLCalls (store : Store) (challenges : List (Int × String))
    (currentID : String) : String × List (String × ℚ) :=
  match findNextID challenges currentID with
  | some nextID => locateChallenge store nextID
  | none => ("", [])

/-- The string returned by `findNextChallengeURL` (`src/main.go:303-363`). -/
def findNextChallengeURL (store : Store) (challenges : List (Int × String))
    (currentID : String) : String :=
  (findNextChallengeURLCalls store challenges currentID).1

/-- The outcome rendered by the `handleNextChallenge` HTTP handler:
which template it executes (`src/main.go:145-203`).  `teamNotFound` and
`storeError` both render `error.html` (with different messages);
`finished` renders `finished.html`; `redirect` renders `redirect.html`. -/
inductive Outcome where
  | badRequest
  | teamNotFound
  | storeError
  | finished (team : String)
  | redirect (url team : String)
deriving DecidableEq

/-- Embeds the decision logic of `handleNextChallenge`
(`src/main.go:145-203`). -/
def handleNextChallenge (store : Store) (currentChallengeID teamName : String) : Outcome :=
  if teamName = "" then .badRequest
  else
    match findTeamPage store teamName with
    | .error _ => .teamNotFound
    | .ok teamPageID =>
      if teamPageID = "" then .teamNotFound
      else
        match getTeamChallenges store teamPageID with
        | .error _ => .storeError
        | .ok teamData =>
          if findNextChallengeURL store teamData currentChallengeID = "" then
            .finished teamName
          else
            .redirect (findNextChallengeURL store teamData currentChallengeID) teamName

/-- The net contribution of a single property to the challenges map, when
its position is not already taken: the first linked record is fetched and
its `id`-with-`ID`-fallback number read (stringified); any failure along
the way contributes nothing. -/
def extractOne (store : Store) (prop : PropValue) : Option String :=
  match prop with
  | .relation (cid :: _) =>
    match store.pageGet cid with
    | .ok cp => (readChallengeId cp).map fmtDot0
    | .error _ => none
  | _ => none

/-- A tiered-filter query outcome that `findTeamPage` treats as "try the
next strategy": either a query error or an empty result list
(`src/main.go:223`). -/
def filterYieldsNothing (store : Store) (prop teamName : String) : Prop :=
  store.queryTeamsFilter prop teamName = .error () ∨
    store.queryTeamsFilter prop teamName = .ok []

/-- A Challenges-DB query outcome that the locator treats as "no record":
either a query error or an empty result list (`src/main.go:335,348`). -/
def challengeQueryYieldsNothing (store : Store) (prop : String) (q : ℚ) : Prop :=
  store.queryChallenges prop q = .error () ∨ store.queryChallenges prop q = .ok []

/-- Fixture: a challenge page whose number property `id` is 10. -/
def chalPage10 : Page := ⟨"chal-1", [("id", .number 10)]⟩

/-- Fixture: a team page whose only challenge relation is `Challenge1`. -/
def teamPage2 : Page := ⟨"team-2", [("Challenge1", .relation ["chal-1"])]⟩

/-- Fixture store: team lookup succeeds immediately, the team has one
challenge (numeric id 10), and the Challenges DB always errors. -/
def storeW2 : Store where
  pageGet := fun pid =>
    if pid = "team-2" then .ok teamPage2
    else if pid = "chal-1" then .ok chalPage10
    else .error ()
  queryTeamsFilter := fun _ _ => .ok [teamPage2]
  queryTeamsAll := fun _ => .ok [teamPage2]
  queryChallenges := fun _ _ => .error ()

/-- Fixture: a challenge page whose store identifier contains a hyphen. -/
def chalPageHit : Page := ⟨"abc-def", []⟩

/-- Fixture store: the Challenges-DB query succeeds on property `id` and
errors on everything else. -/
def storeW4 : Store where
  pageGet := fun _ => .error ()
  queryTeamsFilter := fun _ _ => .error ()
  queryTeamsAll := fun _ => .error ()
  queryChallenges := fun prop _ => if prop = "id" then .ok [chalPageHit] else .error ()

/-- Fixture store: only the `Name` tiered query succeeds. -/
def storeW5 : Store where
  pageGet := fun _ => .error ()
  queryTeamsFilter := fun prop _ => if prop = "Name" then .ok [teamPage2] else .error ()
  queryTeamsAll := fun _ => .error ()
  queryChallenges := fun _ _ => .error ()

/-- Fixture store: every call errors. -/
def storeW6 : Store where
  pageGet := fun _ => .error ()
  queryTeamsFilter := fun _ _ => .error ()
  queryTeamsAll := fun _ => .error ()
  queryChallenges := fun _ _ => .error ()

/-- Fixture: a challenge page whose `id` property exists but is not a
number property; the number lives under `ID`. -/
def cpPage9 : Page := ⟨"c9", [("id", PropValue.title []), ("ID", .number 7)]⟩

/-- Fixture: a team page linking to `cpPage9` at position 1. -/
def teamPage9 : Page := ⟨"team-9", [("Challenge1", .relation ["c9"])]⟩

/-- Fixture store for the `ID`-fallback scenario. -/
def storeW9 : Store where
  pageGet := fun pid =>
    if pid = "team-9" then .ok teamPage9
    else if pid = "c9" then .ok cpPage9
    else .error ()
  queryTeamsFilter := fun _ _ => .error ()
  queryTeamsAll := fun _ => .error ()
  queryChallenges := fun _ _ => .error ()

/-! ### Decimal digit machinery (for the `%.0f` / `%f` round trip) -/

theorem digitsAux_lt : ∀ (fuel n : Nat), ∀ d ∈ digitsAux fuel n, d < 10 := by
  intro fuel
  induction fuel with
  | zero => intro n d hd; simp [digitsAux] at hd
  | succ f ih =>
    intro n d hd
    by_cases h0 : n = 0
    · simp [digitsAux, h0] at hd
    · simp only [digitsAux, if_neg h0, List.mem_cons] at hd
      rcases hd with rfl | hd
      · exact Nat.mod_lt _ (by norm_num)
      · exact ih _ _ hd

theorem decValue_digitsAux : ∀ (fuel n : Nat), n ≤ fuel → decValue (digitsAux fuel n) = n := by
  intro fuel
  induction fuel with
  | zero => intro n hn; interval_cases n; simp [digitsAux, decValue]
  | succ f ih =>
    intro n hn
    by_cases h0 : n = 0
    · simp [digitsAux, h0, decValue]
    · have hdiv : n / 10 ≤ f := by
        have := Nat.div_lt_self (Nat.pos_of_ne_zero h0) (by norm_num : 1 < 10)
        omega
      have hstep : decValue (digitsAux (f + 1) n) =
          n % 10 + 10 * decValue (digitsAux f (n / 10)) := by
        simp [digitsAux, if_neg h0, decValue]
      rw [hstep, ih _ hdiv, Nat.mod_add_div]

theorem digitChar_isDigit (d : Nat) (h : d < 10) : (Nat.digitChar d).isDigit = true := by
  interval_cases d <;> decide

theorem digitChar_val (d : Nat) (h : d < 10) : (Nat.digitChar d).toNat - 48 = d := by
  interval_cases d <;> decide

theorem foldl_digits : ∀ (L : List Nat) (a : Nat), (∀ d ∈ L, d < 10) →
    List.foldl (fun x c => 10 * x + (c.toNat - 48)) a (L.reverse.map Nat.digitChar) =
      a * 10 ^ L.length + decValue L := by
  intro L
  induction L with
  | nil => intro a _; simp [decValue]
  | cons d T ih =>
    intro a h
    have hd : d < 10 := h d (List.mem_cons_self d T)
    have hT : ∀ x ∈ T, x < 10 := fun x hx => h x (List.mem_cons_of_mem _ hx)
    rw [List.reverse_cons, List.map_append, List.foldl_append]
    simp only [List.map_cons, List.map_nil, List.foldl_cons, List.foldl_nil]
    rw [ih a hT, digitChar_val d hd]
    have hdec : decValue (d :: T) = d + 10 * decValue T := rfl
    rw [hdec, List.length_cons, pow_succ]
    ring

theorem digitsVal_rev_map (L : List Nat) (h : ∀ d ∈ L, d < 10) :
    digitsVal (L.reverse.map Nat.digitChar) = decValue L := by
  have := foldl_digits L 0 h
  simpa [digitsVal] using this

theorem natToDec_data_zero : (natToDec 0).data = ['0'] := rfl

theorem natToDec_data_pos (m : Nat) (h : m ≠ 0) :
    (natToDec m).data = (digitsAux m m).reverse.map Nat.digitChar := by
  unfold natToDec
  rw [if_neg h]

theorem natToDec_all_digits (m : Nat) : ∀ c ∈ (natToDec m).data, c.isDigit = true := by
  by_cases h : m = 0
  · subst h
    intro c hc
    rw [natToDec_data_zero] at hc
    simp only [List.mem_singleton] at hc
    subst hc
    decide
  · intro c hc
    rw [natToDec_data_pos m h] at hc
    simp only [List.mem_map, List.mem_reverse] at hc
    obtain ⟨d, hd, rfl⟩ := hc
    exact digitChar_isDigit d (digitsAux_lt m m d hd)

theorem natToDec_ne_nil (m : Nat) : (natToDec m).data ≠ [] := by
  by_cases h : m = 0
  · subst h; rw [natToDec_data_zero]; simp
  · rw [natToDec_data_pos m h]
    have hne : digitsAux m m ≠ [] := by
      cases m with
      | zero => exact absurd rfl h
      | succ k => simp [digitsAux]
    simpa using hne

theorem digitsVal_natToDec (m : Nat) : digitsVal (natToDec m).data = m := by
  by_cases h : m = 0
  · subst h; rw [natToDec_data_zero]; rfl
  · rw [natToDec_data_pos m h, digitsVal_rev_map _ (digitsAux_lt m m),
      decValue_digitsAux m m (Nat.le_refl m)]

/-! ### The float scanner on pure digit strings -/

theorem splitSign_digit (c : Char) (t : List Char) (h : c.isDigit = true) :
    splitSign (c :: t) = (false, c :: t) := by
  have h1 : c ≠ '-' := by rintro rfl; exact absurd h (by decide)
  have h2 : c ≠ '+' := by rintro rfl; exact absurd h (by decide)
  simp [splitSign, h1, h2]

theorem dropWhile_of_all_neg {p : Char → Bool} :
    ∀ l : List Char, (∀ c ∈ l, p c = false) → l.dropWhile p = l := by
  intro l h
  cases l with
  | nil => rfl
  | cons c t => simp [List.dropWhile_cons, h c (List.mem_cons_self c t)]

theorem isScanSpace_of_digit (c : Char) (h : c.isDigit = true) : isScanSpace c = false := by
  have h1 : c ≠ ' ' := by rintro rfl; exact absurd h (by decide)
  have h2 : c ≠ '\t' := by rintro rfl; exact absurd h (by decide)
  simp [isScanSpace, h1, h2]

theorem mantissaVal_nil (l : List Char) : mantissaVal l [] = (digitsVal l : ℚ) := by
  simp [mantissaVal, digitsVal]

theorem dropWhile_of_all_pos {p : Char → Bool} :
    ∀ l : List Char, (∀ c ∈ l, p c = true) → l.dropWhile p = [] := by
  intro l
  induction l with
  | nil => intro _; rfl
  | cons c t ih =>
    intro h
    simp only [List.dropWhile_cons, h c (List.mem_cons_self c t), if_true]
    exact ih fun x hx => h x (List.mem_cons_of_mem _ hx)

theorem parseAfterSign_digits (isNeg : Bool) (l : List Char) (hne : l ≠ [])
    (hd : ∀ c ∈ l, c.isDigit = true) :
    parseAfterSign isNeg l =
      some (if isNeg then -(digitsVal l : ℚ) else (digitsVal l : ℚ)) := by
  unfold parseAfterSign parseAfterInt parseAfterFrac
  rw [List.takeWhile_eq_self_iff.mpr hd, dropWhile_of_all_pos l hd]
  have hfrac : fracSplit [] = ([], []) := rfl
  rw [hfrac]
  rw [if_neg (by intro hc; exact hne hc.1)]
  have happ : applyExp (mantissaVal l []) [] = some (mantissaVal l []) := rfl
  rw [happ, mantissaVal_nil]
  cases isNeg <;> simp

theorem parseFloatChars_digits (l : List Char) (hne : l ≠ [])
    (hd : ∀ c ∈ l, c.isDigit = true) :
    parseFloatChars l = some ((digitsVal l : ℚ)) := by
  obtain ⟨c, t, rfl⟩ : ∃ c t, l = c :: t := by
    cases l with
    | nil => exact absurd rfl hne
    | cons c t => exact ⟨c, t, rfl⟩
  unfold parseFloatChars
  rw [splitSign_digit c t (hd c (List.mem_cons_self c t))]
  rw [parseAfterSign_digits false (c :: t) hne hd]
  simp

theorem parseFloat_natToDec (m : Nat) : parseFloat (natToDec m) = some ((m : ℚ)) := by
  unfold parseFloat
  rw [dropWhile_of_all_neg _
    (fun c hc => isScanSpace_of_digit c (natToDec_all_digits m c hc))]
  rw [parseFloatChars_digits _ (natToDec_ne_nil m) (natToDec_all_digits m)]
  rw [digitsVal_natToDec m]

theorem parseFloat_fmtDot0 (n : Int) : parseFloat (fmtDot0 n) = some ((n : ℚ)) := by
  cases n with
  | ofNat m =>
    rw [Int.ofNat_eq_coe]
    have hlt : ¬ ((m : ℤ) < 0) := Int.not_lt.mpr (Int.ofNat_nonneg m)
    rw [fmtDot0, if_neg hlt, Int.natAbs_ofNat, parseFloat_natToDec]
    norm_cast
  | negSucc m =>
    have hlt : Int.negSucc m < 0 := Int.negSucc_lt_zero m
    rw [fmtDot0, if_pos hlt, Int.natAbs_negSucc]
    unfold parseFloat
    have hdata : ("-" ++ natToDec (m + 1)).data = '-' :: (natToDec (m + 1)).data := by
      rw [String.data_append]
      rfl
    rw [hdata]
    have hall : ∀ c ∈ '-' :: (natToDec (m + 1)).data, isScanSpace c = false := by
      intro c hc
      rcases List.mem_cons.mp hc with rfl | hc
      · decide
      · exact isScanSpace_of_digit c (natToDec_all_digits (m + 1) c hc)
    rw [dropWhile_of_all_neg ('-' :: (natToDec (m + 1)).data) hall]
    unfold parseFloatChars
    have hsplit : splitSign ('-' :: (natToDec (m + 1)).data) =
        (true, (natToDec (m + 1)).data) := by
      simp [splitSign]
    rw [hsplit]
    rw [parseAfterSign_digits true _ (natToDec_ne_nil (m + 1)) (natToDec_all_digits (m + 1))]
    rw [digitsVal_natToDec (m + 1)]
    simp [Int.cast_negSucc]

/-! ### Challenges-map lemmas -/

theorem mapLookup_insert_self (m : List (Int × String)) (k : Int) (v : String) :
    mapLookup (mapInsert m k v) k = some v := by
  simp [mapLookup, mapInsert]

theorem find?_filter_ne (m : List (Int × String)) (k k' : Int) (h : k' ≠ k) :
    (m.filter fun p => decide (p.1 ≠ k)).find? (fun p => decide (p.1 = k')) =
      m.find? (fun p => decide (p.1 = k')) := by
  induction m with
  | nil => rfl
  | cons p t ih =>
    by_cases hp : p.1 = k
    · rw [List.filter_cons_of_neg (by simp [hp])]
      have hp' : ¬ (p.1 = k') := by rw [hp]; exact fun hc => h hc.symm
      rw [List.find?_cons_of_neg _ (by simp [hp'])]
      exact ih
    · rw [List.filter_cons_of_pos (by simp [hp])]
      by_cases hq : p.1 = k'
      · rw [List.find?_cons_of_pos _ (by simp [hq]), List.find?_cons_of_pos _ (by simp [hq])]
      · rw [List.find?_cons_of_neg _ (by simp [hq]), List.find?_cons_of_neg _ (by simp [hq])]
        exact ih

theorem mapLookup_insert_ne (m : List (Int × String)) (k : Int) (v : String)
    (k' : Int) (h : k' ≠ k) : mapLookup (mapInsert m k v) k' = mapLookup m k' := by
  unfold mapLookup mapInsert
  rw [List.find?_cons_of_neg _ (by simp; exact fun hc => h hc.symm),
    find?_filter_ne m k k' h]

theorem afterId_of_absent (m : List (Int × String)) (n : Int) (cp : Page)
    (hnone : mapLookup m n = none) :
    afterIdFallback (afterIdRead m n cp) n cp =
      match readChallengeId cp with
      | some v => mapInsert m n (fmtDot0 v)
      | none => m := by
  unfold afterIdRead afterIdFallback readChallengeId
  cases hid : lookupProp cp.properties "id" with
  | some pv =>
    cases pv
    case number v => rw [mapLookup_insert_self]
    all_goals
      rw [hnone]
      cases hID : lookupProp cp.properties "ID" with
      | none => rfl
      | some pv2 => cases pv2 <;> rfl
  | none =>
    rw [hnone]
    cases hID : lookupProp cp.properties "ID" with
    | none => rfl
    | some pv2 => cases pv2 <;> rfl

theorem afterId_lookup_ne (m : List (Int × String)) (n : Int) (cp : Page)
    (N : Int) (h : N ≠ n) :
    mapLookup (afterIdFallback (afterIdRead m n cp) n cp) N = mapLookup m N := by
  unfold afterIdRead afterIdFallback
  cases hid : lookupProp cp.properties "id" with
  | some pv =>
    cases pv
    case number v =>
      rw [mapLookup_insert_self]
      exact mapLookup_insert_ne m n (fmtDot0 v) N h
    all_goals
      cases hl : mapLookup m n with
      | some _ => rfl
      | none =>
        cases hID : lookupProp cp.properties "ID" with
        | none => rfl
        | some pv2 =>
          cases pv2
          case number v => exact mapLookup_insert_ne m n (fmtDot0 v) N h
          all_goals rfl
  | none =>
    cases hl : mapLookup m n with
    | some _ => rfl
    | none =>
      cases hID : lookupProp cp.properties "ID" with
      | none => rfl
      | some pv2 =>
        cases pv2
        case number v => exact mapLookup_insert_ne m n (fmtDot0 v) N h
        all_goals rfl

theorem processProp_of_scan_none (store : Store) (m : List (Int × String))
    (propName : String) (prop : PropValue) (h : scanChallengeNum propName = none) :
    processProp store m propName prop = m := by
  unfold processProp
  rw [h]

theorem processProp_some (store : Store) (m : List (Int × String))
    (propName : String) (prop : PropValue) (n : Int)
    (h : scanChallengeNum propName = some n) :
    processProp store m propName prop =
      match prop with
      | .relation (cid :: _) =>
        match store.pageGet cid with
        | .error _ => m
        | .ok cp => afterIdFallback (afterIdRead m n cp) n cp
      | _ => m := by
  unfold processProp
  rw [h]

theorem processProp_relation (store : Store) (m : List (Int × String))
    (propName : String) (n : Int) (cid : String) (rest : List String)
    (h : scanChallengeNum propName = some n) :
    processProp store m propName (.relation (cid :: rest)) =
      match store.pageGet cid with
      | .error _ => m
      | .ok cp => afterIdFallback (afterIdRead m n cp) n cp := by
  unfold processProp
  rw [h]

theorem extractOne_relation (store : Store) (cid : String) (rest : List String) :
    extractOne store (.relation (cid :: rest)) =
      match store.pageGet cid with
      | .ok cp => (readChallengeId cp).map fmtDot0
      | .error _ => none := by
  unfold extractOne
  rfl

theorem processProp_of_scan_some (store : Store) (m : List (Int × String))
    (propName : String) (prop : PropValue) (n : Int)
    (hscan : scanChallengeNum propName = some n) (hnone : mapLookup m n = none) :
    processProp store m propName prop =
      match extractOne store prop with
      | some v => mapInsert m n v
      | none => m := by
  cases prop with
  | relation ids =>
    cases ids with
    | nil => rw [processProp_some store m propName _ n hscan]; rfl
    | cons cid rest =>
      rw [processProp_relation store m propName n cid rest hscan,
        extractOne_relation store cid rest]
      cases hpg : store.pageGet cid with
      | error e => rfl
      | ok cp =>
        show afterIdFallback (afterIdRead m n cp) n cp =
          match (readChallengeId cp).map fmtDot0 with
          | some v => mapInsert m n v
          | none => m
        rw [afterId_of_absent m n cp hnone]
        cases hrd : readChallengeId cp with
        | some v => rfl
        | none => rfl
  | title ts => rw [processProp_some store m propName _ n hscan]; rfl
  | richText ts => rw [processProp_some store m propName _ n hscan]; rfl
  | number v => rw [processProp_some store m propName _ n hscan]; rfl
  | other => rw [processProp_some store m propName _ n hscan]; rfl

theorem processProp_lookup_ne (store : Store) (m : List (Int × String))
    (propName : String) (prop : PropValue) (N : Int)
    (h : scanChallengeNum propName ≠ some N) :
    mapLookup (processProp store m propName prop) N = mapLookup m N := by
  cases hscan : scanChallengeNum propName with
  | none => rw [processProp_of_scan_none store m propName prop hscan]
  | some n =>
    have hnN : N ≠ n := by
      intro hc
      exact h (by rw [hscan, hc])
    cases prop with
    | relation ids =>
      cases ids with
      | nil => rw [processProp_some store m propName _ n hscan]
      | cons cid rest =>
        rw [processProp_relation store m propName n cid rest hscan]
        cases hpg : store.pageGet cid with
        | error e => rfl
        | ok cp => exact afterId_lookup_ne m n cp N hnN
    | title ts => rw [processProp_some store m propName _ n hscan]
    | richText ts => rw [processProp_some store m propName _ n hscan]
    | number v => rw [processProp_some store m propName _ n hscan]
    | other => rw [processProp_some store m propName _ n hscan]

theorem foldl_lookup_of_no_scan (store : Store) (N : Int) :
    ∀ (props : List (String × PropValue)) (m : List (Int × String)),
      (∀ p ∈ props, scanChallengeNum p.1 ≠ some N) →
      mapLookup (props.foldl (fun m pr => processProp store m pr.1 pr.2) m) N =
        mapLookup m N := by
  intro props
  induction props with
  | nil => intro m _; rfl
  | cons q rest ih =>
    intro m h
    rw [List.foldl_cons]
    rw [ih (processProp store m q.1 q.2) fun p hp => h p (List.mem_cons_of_mem _ hp)]
    exact processProp_lookup_ne store m q.1 q.2 N (h q (List.mem_cons_self q rest))

theorem foldl_lookup_characterization (store : Store) (N : Int) :
    ∀ (props : List (String × PropValue)) (m : List (Int × String)),
      (props.filterMap fun p => scanChallengeNum p.1).Nodup →
      mapLookup m N = none →
      mapLookup (props.foldl (fun m pr => processProp store m pr.1 pr.2) m) N =
        ((props.find? fun p => decide (scanChallengeNum p.1 = some N)) >>=
          fun p => extractOne store p.2) := by
  intro props
  induction props with
  | nil =>
    intro m _ hm
    simpa using hm
  | cons q rest ih =>
    intro m hnodup hm
    rw [List.foldl_cons]
    cases hscan : scanChallengeNum q.1 with
    | none =>
      rw [processProp_of_scan_none store m q.1 q.2 hscan]
      rw [List.find?_cons_of_neg _ (by simp [hscan])]
      have hnd : (rest.filterMap fun p => scanChallengeNum p.1).Nodup := by
        simpa [List.filterMap_cons, hscan] using hnodup
      exact ih m hnd hm
    | some n =>
      have hfm : (List.filterMap (fun p => scanChallengeNum p.1) (q :: rest)) =
          n :: rest.filterMap fun p => scanChallengeNum p.1 := by
        simp [List.filterMap_cons, hscan]
      have hnotmem : n ∉ rest.filterMap fun p => scanChallengeNum p.1 :=
        (List.nodup_cons.mp (hfm ▸ hnodup)).1
      have hnd : (rest.filterMap fun p => scanChallengeNum p.1).Nodup :=
        (List.nodup_cons.mp (hfm ▸ hnodup)).2
      by_cases hnN : n = N
      · subst hnN
        rw [List.find?_cons_of_pos _ (by simp [hscan])]
        have hrest : ∀ p ∈ rest, scanChallengeNum p.1 ≠ some n := by
          intro p hp hc
          exact hnotmem (List.mem_filterMap.mpr ⟨p, hp, hc⟩)
        rw [foldl_lookup_of_no_scan store n rest _ hrest]
        rw [processProp_of_scan_some store m q.1 q.2 n hscan hm]
        cases hx : extractOne store q.2 with
        | some v => simp [mapLookup_insert_self, hx]
        | none => simp [hx, hm]
      · rw [List.find?_cons_of_neg _ (by simp [hscan, hnN])]
        have hm2 : mapLookup (processProp store m q.1 q.2) N = none := by
          rw [processProp_lookup_ne store m q.1 q.2 N
            (by rw [hscan]; exact fun hc => hnN (Option.some.inj hc))]
          exact hm
        exact ih _ hnd hm2

/-! ### Team-resolution lemmas -/

theorem tryTiered_cons_hit (store : Store) (teamName q : String) (rest : List String)
    (r : Page) (rs : List Page)
    (h : store.queryTeamsFilter q teamName = .ok (r :: rs)) :
    tryTieredQueries store teamName (q :: rest) = some r.id := by
  unfold tryTieredQueries
  rw [h]

theorem tryTiered_cons_miss (store : Store) (teamName q : String) (rest : List String)
    (h : filterYieldsNothing store q teamName) :
    tryTieredQueries store teamName (q :: rest) = tryTieredQueries store teamName rest := by
  rcases h with h | h
  · conv_lhs => unfold tryTieredQueries
    rw [h]
  · conv_lhs => unfold tryTieredQueries
    rw [h]

theorem tryTiered_eq_none_iff (store : Store) (teamName : String) :
    ∀ props : List String,
      tryTieredQueries store teamName props = none ↔
        ∀ p ∈ props, filterYieldsNothing store p teamName := by
  intro props
  induction props with
  | nil => simp [tryTieredQueries]
  | cons q rest ih =>
    cases hq : store.queryTeamsFilter q teamName with
    | error e =>
      cases e
      rw [tryTiered_cons_miss store teamName q rest (Or.inl hq)]
      constructor
      · intro h p hp
        rcases List.mem_cons.mp hp with rfl | hp
        · exact Or.inl hq
        · exact ih.mp h p hp
      · intro h
        exact ih.mpr fun p hp => h p (List.mem_cons_of_mem _ hp)
    | ok results =>
      cases results with
      | nil =>
        rw [tryTiered_cons_miss store teamName q rest (Or.inr hq)]
        constructor
        · intro h p hp
          rcases List.mem_cons.mp hp with rfl | hp
          · exact Or.inr hq
          · exact ih.mp h p hp
        · intro h
          exact ih.mpr fun p hp => h p (List.mem_cons_of_mem _ hp)
      | cons r rs =>
        rw [tryTiered_cons_hit store teamName q rest r rs hq]
        constructor
        · intro h
          exact absurd h (by simp)
        · intro h
          rcases h q (List.mem_cons_self q rest) with hc | hc
          · rw [hq] at hc
            exact absurd hc (by simp)
          · rw [hq] at hc
            exact absurd hc (by simp)

theorem findTeamPage_of_tiered_some (store : Store) (teamName pid : String)
    (h : tryTieredQueries store teamName tieredPropertyNames = some pid) :
    findTeamPage store teamName = .ok pid := by
  unfold findTeamPage
  rw [h]

theorem findTeamPage_scan_error (store : Store) (teamName : String)
    (ht : tryTieredQueries store teamName tieredPropertyNames = none)
    (hall : store.queryTeamsAll 100 = .error ()) :
    findTeamPage store teamName = .error () := by
  unfold findTeamPage
  rw [ht, hall]

theorem findTeamPage_scan_ok (store : Store) (teamName : String) (pages : List Page)
    (ht : tryTieredQueries store teamName tieredPropertyNames = none)
    (hall : store.queryTeamsAll 100 = .ok pages) :
    findTeamPage store teamName =
      match pages.find? (pageTitleMatches teamName) with
      | some pg => .ok pg.id
      | none => .ok "" := by
  unfold findTeamPage
  rw [ht, hall]

/-! ### A `find?` that is stable under permutation when at most one
element can satisfy the predicate -/

theorem find?_eq_of_perm {α : Type} (p : α → Bool) (l1 l2 : List α)
    (hperm : l1.Perm l2)
    (huniq : ∀ a ∈ l1, ∀ b ∈ l1, p a = true → p b = true → a = b) :
    l1.find? p = l2.find? p := by
  cases h1 : l1.find? p with
  | none =>
    cases h2 : l2.find? p with
    | none => rfl
    | some y =>
      have hy := List.find?_some h2
      have hmem : y ∈ l1 := hperm.mem_iff.mpr (List.mem_of_find?_eq_some h2)
      exact absurd hy (List.find?_eq_none.mp h1 y hmem)
  | some x =>
    have hx := List.find?_some h1
    have hxm : x ∈ l2 := hperm.mem_iff.mp (List.mem_of_find?_eq_some h1)
    cases h2 : l2.find? p with
    | none => exact absurd hx (List.find?_eq_none.mp h2 x hxm)
    | some y =>
      have hy := List.find?_some h2
      have hym : y ∈ l1 := hperm.mem_iff.mpr (List.mem_of_find?_eq_some h2)
      rw [huniq x (List.mem_of_find?_eq_some h1) y hym hx hy]

/-! ### The claims -/

/-- Claim C1: for every sequence mapping and every `currentID` that equals
none of the identifiers stored in the mapping, next-position resolution
treats the current position as 0 and returns the identifier stored at
position 1 (the lookup at key `0 + 1`), and it never returns an error for
such an input (its result is exactly that total lookup). -/
theorem c1_unknown_id_fallback (challenges : List (Int × String)) (currentID : String)
    (h : ∀ p ∈ challenges, p.2 ≠ currentID) :
    findCurrentPos challenges currentID = 0 ∧
    findNextID challenges currentID = mapLookup challenges 1 := by
  have hfind : challenges.find? (fun p => decide (p.2 = currentID)) = none :=
    List.find?_eq_none.mpr fun p hp => by simp [h p hp]
  have h0 : findCurrentPos challenges currentID = 0 := by
    unfold findCurrentPos
    rw [hfind]
  refine ⟨h0, ?_⟩
  unfold findNextID
  rw [h0]
  norm_num

theorem c1_witness : findNextID [(1, "10")] "zz" = some "10" := by
  have h := c1_unknown_id_fallback [(1, "10")] "zz" (by decide)
  exact h.2.trans rfl

/-- Claim C2: when `currentPos + 1` is not a key of the mapping,
`findNextChallengeURL` returns the empty string and issues no
Challenges-DB query, and the `handleNextChallenge` caller renders this as
the terminal `finished` outcome rather than an error. -/
theorem c2_exhausted_finished (store : Store) (challenges : List (Int × String))
    (currentID : String)
    (h : mapLookup challenges (findCurrentPos challenges currentID + 1) = none) :
    findNextChallengeURLCalls store challenges currentID = ("", []) ∧
    (∀ teamName pid : String, teamName ≠ "" → findTeamPage store teamName = .ok pid →
      pid ≠ "" → getTeamChallenges store pid = .ok challenges →
      handleNextChallenge store currentID teamName = .finished teamName) := by
  have hnid : findNextID challenges currentID = none := h
  have hcalls : findNextChallengeURLCalls store challenges currentID = ("", []) := by
    unfold findNextChallengeURLCalls
    rw [hnid]
  refine ⟨hcalls, ?_⟩
  intro teamName pid hteam hfind hpid hchal
  unfold handleNextChallenge
  rw [if_neg hteam, hfind]
  show (if pid = "" then Outcome.teamNotFound
    else match getTeamChallenges store pid with
      | .error _ => Outcome.storeError
      | .ok teamData =>
        if findNextChallengeURL store teamData currentID = "" then .finished teamName
        else .redirect (findNextChallengeURL store teamData currentID) teamName) =
    .finished teamName
  rw [if_neg hpid, hchal]
  show (if findNextChallengeURL store challenges currentID = "" then
      Outcome.finished teamName
    else Outcome.redirect (findNextChallengeURL store challenges currentID) teamName) =
    .finished teamName
  have hurl : findNextChallengeURL store challenges currentID = "" := by
    unfold findNextChallengeURL
    rw [hcalls]
  rw [if_pos hurl]

theorem c2_witness : handleNextChallenge storeW2 "10" "Rockets" = .finished "Rockets" :=
  (c2_exhausted_finished storeW2 [(1, "10")] "10" rfl).2 "Rockets" "team-2"
    (by decide) rfl (by decide) rfl

/-- Claim C3: sequence extraction, characterized position by position.
When the team-page fetch succeeds and the scanned `Challenge<N>` positions
are pairwise distinct, extraction returns without error, and the entry
stored under any position `N` is exactly: find the property whose name
scans to `N`; if it is a relation with at least one target, fetch the
first linked record and read its numeric identifier from `id` with
fallback to `ID`, stringified without decimal places (`extractOne`);
positions whose fetch or read fails are simply absent. -/
theorem c3_extraction_characterization (store : Store) (teamPageID : String) (page : Page)
    (hpg : store.pageGet teamPageID = .ok page)
    (hnodup : (page.properties.filterMap fun p => scanChallengeNum p.1).Nodup) :
    getTeamChallenges store teamPageID = .ok (extractChallenges store page) ∧
    ∀ N : Int, mapLookup (extractChallenges store page) N =
      ((page.properties.find? fun p => decide (scanChallengeNum p.1 = some N)) >>=
        fun p => extractOne store p.2) := by
  constructor
  · unfold getTeamChallenges
    rw [hpg]
  · intro N
    unfold extractChallenges
    exact foldl_lookup_characterization store N page.properties [] hnodup rfl

theorem c3_witness :
    getTeamChallenges storeW2 "team-2" = .ok (extractChallenges storeW2 teamPage2) ∧
    mapLookup (extractChallenges storeW2 teamPage2) 1 = some "10" := by
  have h := c3_extraction_characterization storeW2 "team-2" teamPage2 rfl (by decide)
  exact ⟨h.1, (h.2 1).trans rfl⟩

/-- Claim C7: round trip between the extractor's `%.0f` stringification
and the locator's `%f` parse, for integer-valued numeric identifiers:
stringifying yields the canonical integer string (`7` ↦ `"7"`), and
parsing that string back yields the original numeric value, so the two
conversions compose to the identity. -/
theorem c7_roundtrip :
    fmtDot0 (7 : Int) = "7" ∧
    ∀ n : Int, parseFloat (fmtDot0 n) = some ((n : ℚ)) :=
  ⟨rfl, parseFloat_fmtDot0⟩

/-- Claim C4: the locator, characterized.  It parses the identifier
string as a floating-point value, first queries the Challenges DB with an
equality filter on number property `id`; if that query errors or returns
zero records it retries exactly once with property `ID`; on a hit it
returns the fixed base URL concatenated with the record's hyphen-stripped
store identifier; if neither attempt yields a record it returns the empty
string.  The second component of `locateChallenge` records the queries
issued, in order. -/
theorem c4_locator_characterization (store : Store) (nextID : String) :
    (∀ (r : Page) (rs : List Page),
      store.queryChallenges "id" (chalFilterValue nextID) = .ok (r :: rs) →
      locateChallenge store nextID =
        (notionBaseURL ++ stripHyphens r.id, [("id", chalFilterValue nextID)])) ∧
    (challengeQueryYieldsNothing store "id" (chalFilterValue nextID) →
      (∀ (r : Page) (rs : List Page),
        store.queryChallenges "ID" (chalFilterValue nextID) = .ok (r :: rs) →
        locateChallenge store nextID =
          (notionBaseURL ++ stripHyphens r.id,
            [("id", chalFilterValue nextID), ("ID", chalFilterValue nextID)])) ∧
      (challengeQueryYieldsNothing store "ID" (chalFilterValue nextID) →
        locateChallenge store nextID =
          ("", [("id", chalFilterValue nextID), ("ID", chalFilterValue nextID)]))) := by
  refine ⟨?_, ?_⟩
  · intro r rs h
    unfold locateChallenge
    rw [h]
  · intro hid
    refine ⟨?_, ?_⟩
    · intro r rs h
      rcases hid with h1 | h1 <;>
        (unfold locateChallenge; rw [h1, h])
    · intro hID
      rcases hid with h1 | h1 <;> rcases hID with h2 | h2 <;>
        (unfold locateChallenge; rw [h1, h2])

theorem c4_witness : (locateChallenge storeW4 "2").1 = notionBaseURL ++ "abcdef" := by
  have h := (c4_locator_characterization storeW4 "2").1 chalPageHit [] rfl
  rw [h]
  rfl

/-- Claim C5: team resolution issues the tiered equality-filter queries
in exactly the order `Name`, `Team`, `Title`, `title`, returning the
first record's identifier of the first query that succeeds with at least
one result; only when all four yield nothing does it fall back to an
unfiltered scan requesting the first 100 Team records, returning the
identifier of the first record with a title-type or rich-text-type
property value equal to the name exactly (`pageTitleMatches`), or the
empty not-found identifier. -/
theorem c5_team_resolution_order (store : Store) (teamName : String) :
    (∀ (r : Page) (rs : List Page),
      store.queryTeamsFilter "Name" teamName = .ok (r :: rs) →
      findTeamPage store teamName = .ok r.id) ∧
    (filterYieldsNothing store "Name" teamName →
      ∀ (r : Page) (rs : List Page),
        store.queryTeamsFilter "Team" teamName = .ok (r :: rs) →
        findTeamPage store teamName = .ok r.id) ∧
    (filterYieldsNothing store "Name" teamName →
      filterYieldsNothing store "Team" teamName →
      ∀ (r : Page) (rs : List Page),
        store.queryTeamsFilter "Title" teamName = .ok (r :: rs) →
        findTeamPage store teamName = .ok r.id) ∧
    (filterYieldsNothing store "Name" teamName →
      filterYieldsNothing store "Team" teamName →
      filterYieldsNothing store "Title" teamName →
      ∀ (r : Page) (rs : List Page),
        store.queryTeamsFilter "title" teamName = .ok (r :: rs) →
        findTeamPage store teamName = .ok r.id) ∧
    ((∀ p ∈ tieredPropertyNames, filterYieldsNothing store p teamName) →
      (store.queryTeamsAll 100 = .error () → findTeamPage store teamName = .error ()) ∧
      (∀ pages : List Page, store.queryTeamsAll 100 = .ok pages →
        findTeamPage store teamName =
          .ok (match pages.find? (pageTitleMatches teamName) with
               | some pg => pg.id
               | none => ""))) := by
  refine ⟨?_, ?_, ?_, ?_, ?_⟩
  · intro r rs h
    apply findTeamPage_of_tiered_some
    show tryTieredQueries store teamName ("Name" :: ["Team", "Title", "title"]) = some r.id
    exact tryTiered_cons_hit store teamName "Name" _ r rs h
  · intro h1 r rs h
    apply findTeamPage_of_tiered_some
    show tryTieredQueries store teamName ("Name" :: ["Team", "Title", "title"]) = some r.id
    rw [tryTiered_cons_miss store teamName "Name" _ h1]
    exact tryTiered_cons_hit store teamName "Team" _ r rs h
  · intro h1 h2 r rs h
    apply findTeamPage_of_tiered_some
    show tryTieredQueries store teamName ("Name" :: ["Team", "Title", "title"]) = some r.id
    rw [tryTiered_cons_miss store teamName "Name" _ h1,
      tryTiered_cons_miss store teamName "Team" _ h2]
    exact tryTiered_cons_hit store teamName "Title" _ r rs h
  · intro h1 h2 h3 r rs h
    apply findTeamPage_of_tiered_some
    show tryTieredQueries store teamName ("Name" :: ["Team", "Title", "title"]) = some r.id
    rw [tryTiered_cons_miss store teamName "Name" _ h1,
      tryTiered_cons_miss store teamName "Team" _ h2,
      tryTiered_cons_miss store teamName "Title" _ h3]
    exact tryTiered_cons_hit store teamName "title" _ r rs h
  · intro hfy
    have ht : tryTieredQueries store teamName tieredPropertyNames = none :=
      (tryTiered_eq_none_iff store teamName tieredPropertyNames).mpr hfy
    refine ⟨fun hall => findTeamPage_scan_error store teamName ht hall, ?_⟩
    intro pages hall
    rw [findTeamPage_scan_ok store teamName pages ht hall]
    cases hfind : pages.find? (pageTitleMatches teamName) <;> rfl

theorem c5_witness : findTeamPage storeW5 "Rockets" = .ok "team-2" :=
  ((c5_team_resolution_order storeW5 "Rockets").1 teamPage2 [] rfl).trans rfl

/-- Claim C6: team resolution swallows every tiered-filter query error
(the result is a store error exactly when all four tiers yield nothing
and the full scan itself errors), and when every strategy completes
without error and nothing matches, it reports the not-found identifier
(`.ok ""`) rather than an error. -/
theorem c6_team_resolution_errors (store : Store) (teamName : String) :
    (findTeamPage store teamName = .error () ↔
      ((∀ p ∈ tieredPropertyNames, filterYieldsNothing store p teamName) ∧
        store.queryTeamsAll 100 = .error ())) ∧
    ((∀ p ∈ tieredPropertyNames, filterYieldsNothing store p teamName) →
      ∀ pages : List Page, store.queryTeamsAll 100 = .ok pages →
      (∀ pg ∈ pages, pageTitleMatches teamName pg = false) →
      findTeamPage store teamName = .ok "") := by
  refine ⟨?_, ?_⟩
  · cases ht : tryTieredQueries store teamName tieredPropertyNames with
    | some pid =>
      rw [findTeamPage_of_tiered_some store teamName pid ht]
      constructor
      · intro h
        exact absurd h (by simp)
      · rintro ⟨hfy, _⟩
        have hnone := (tryTiered_eq_none_iff store teamName tieredPropertyNames).mpr hfy
        rw [ht] at hnone
        exact absurd hnone (by simp)
    | none =>
      have hfy := (tryTiered_eq_none_iff store teamName tieredPropertyNames).mp ht
      cases hall : store.queryTeamsAll 100 with
      | error e =>
        cases e
        rw [findTeamPage_scan_error store teamName ht hall]
        constructor
        · intro _
          exact ⟨hfy, rfl⟩
        · intro _
          rfl
      | ok pages =>
        rw [findTeamPage_scan_ok store teamName pages ht hall]
        constructor
        · intro h
          cases hfind : pages.find? (pageTitleMatches teamName) with
          | some pg =>
            rw [hfind] at h
            exact absurd h (by simp)
          | none =>
            rw [hfind] at h
            exact absurd h (by simp)
        · rintro ⟨_, hcontra⟩
          exact absurd hcontra (by simp)
  · intro hfy pages hall hnomatch
    have ht : tryTieredQueries store teamName tieredPropertyNames = none :=
      (tryTiered_eq_none_iff store teamName tieredPropertyNames).mpr hfy
    rw [findTeamPage_scan_ok store teamName pages ht hall]
    have hfn : pages.find? (pageTitleMatches teamName) = none :=
      List.find?_eq_none.mpr fun pg hm => by rw [hnomatch pg hm]; simp
    rw [hfn]

theorem c6_witness : findTeamPage storeW6 "x" = .error () :=
  (c6_team_resolution_errors storeW6 "x").1.mpr ⟨fun _ _ => Or.inl rfl, rfl⟩

/-- Claim C8: when distinct positions hold pairwise-distinct identifier
strings (and positions are unique, as Go map keys are), next-position
resolution returns the same result for any two enumeration orders of the
same mapping: the implementation-defined map iteration order does not
affect the outcome. -/
theorem c8_iteration_order_independent (l1 l2 : List (Int × String)) (currentID : String)
    (hperm : l1.Perm l2)
    (hkeys : (l1.map Prod.fst).Nodup)
    (hids : (l1.map Prod.snd).Nodup) :
    findNextID l1 currentID = findNextID l2 currentID := by
  have huniq1 : ∀ a ∈ l1, ∀ b ∈ l1,
      decide (a.2 = currentID) = true → decide (b.2 = currentID) = true → a = b := by
    intro a ha b hb hpa hpb
    exact List.inj_on_of_nodup_map hids ha hb
      ((of_decide_eq_true hpa).trans (of_decide_eq_true hpb).symm)
  have hpos : findCurrentPos l1 currentID = findCurrentPos l2 currentID := by
    unfold findCurrentPos
    rw [find?_eq_of_perm _ l1 l2 hperm huniq1]
  have hlook : ∀ k : Int, mapLookup l1 k = mapLookup l2 k := by
    intro k
    have huniqk : ∀ a ∈ l1, ∀ b ∈ l1,
        decide (a.1 = k) = true → decide (b.1 = k) = true → a = b := by
      intro a ha b hb hpa hpb
      exact List.inj_on_of_nodup_map hkeys ha hb
        ((of_decide_eq_true hpa).trans (of_decide_eq_true hpb).symm)
    unfold mapLookup
    rw [find?_eq_of_perm _ l1 l2 hperm huniqk]
  unfold findNextID
  rw [hpos, hlook]

theorem c8_witness :
    findNextID [(1, "10"), (2, "20")] "10" = findNextID [(2, "20"), (1, "10")] "10" :=
  c8_iteration_order_independent [(1, "10"), (2, "20")] [(2, "20"), (1, "10")] "10"
    (by decide) (by decide) (by decide)

/-- Claim C9: in sequence extraction the `ID` fallback fires whenever the
`id` read stored no value — in particular when `id` exists but is not a
number property — and when both reads store nothing, the position is
simply absent from the (error-free) result. -/
theorem c9_id_fallback (store : Store) (teamPageID : String) (page : Page)
    (nm : String) (N : Int) (cid : String) (rest : List String) (cp : Page)
    (hpg : store.pageGet teamPageID = .ok page)
    (hprops : page.properties = [(nm, .relation (cid :: rest))])
    (hscan : scanChallengeNum nm = some N)
    (hcp : store.pageGet cid = .ok cp)
    (hid : ∀ v : Int, lookupProp cp.properties "id" ≠ some (.number v)) :
    ((∀ v : Int, lookupProp cp.properties "ID" ≠ some (.number v)) →
      getTeamChallenges store teamPageID = .ok []) ∧
    (∀ v : Int, lookupProp cp.properties "ID" = some (.number v) →
      getTeamChallenges store teamPageID = .ok (mapInsert [] N (fmtDot0 v))) := by
  have hget : getTeamChallenges store teamPageID = .ok (extractChallenges store page) := by
    unfold getTeamChallenges
    rw [hpg]
  have hfold : extractChallenges store page =
      processProp store [] nm (.relation (cid :: rest)) := by
    unfold extractChallenges
    rw [hprops]
    rfl
  have hrel : processProp store [] nm (.relation (cid :: rest)) =
      afterIdFallback (afterIdRead [] N cp) N cp := by
    rw [processProp_relation store [] nm N cid rest hscan, hcp]
  have habsent := afterId_of_absent [] N cp rfl
  have hread : readChallengeId cp =
      (match lookupProp cp.properties "ID" with
       | some (.number v) => some v
       | _ => none) := by
    unfold readChallengeId
    cases hl : lookupProp cp.properties "id" with
    | none => rfl
    | some pv =>
      cases pv
      case number v => exact absurd hl (hid v)
      all_goals rfl
  constructor
  · intro hID
    have hr : readChallengeId cp = none := by
      rw [hread]
      cases hL : lookupProp cp.properties "ID" with
      | none => rfl
      | some pv =>
        cases pv
        case number v => exact absurd hL (hID v)
        all_goals rfl
    rw [hget, hfold, hrel, habsent, hr]
  · intro v hL
    have hr : readChallengeId cp = some v := by
      rw [hread, hL]
    rw [hget, hfold, hrel, habsent, hr]

theorem c9_witness :
    getTeamChallenges storeW9 "team-9" = .ok (mapInsert [] 1 (fmtDot0 7)) := by
  have hid : ∀ v : Int, lookupProp cpPage9.properties "id" ≠ some (.number v) := by
    intro v hv
    have hl : lookupProp cpPage9.properties "id" = some (PropValue.title []) := rfl
    rw [hl] at hv
    exact absurd (Option.some.inj hv) (by simp)
  have h := c9_id_fallback storeW9 "team-9" teamPage9 "Challenge1" 1 "c9" [] cpPage9
    rfl rfl rfl rfl hid
  exact h.2 7 rfl

/-- Claim C10: the property-name scan accepts any name from which the
pattern `Challenge` followed by an integer can be scanned, without
requiring the integer to be positive or to end the name: a trailing
suffix is ignored and a sign is accepted, rather than only names exactly
of the form `Challenge<N>` with `N ≥ 1`. -/
theorem c10_scan_lenient :
    scanChallengeNum "Challenge2Bonus" = some 2 ∧
    scanChallengeNum "Challenge-1" = some (-1) ∧
    scanChallengeNum "Challenge0" = some 0 ∧
    scanChallengeNum "Challenge" = none := by
  refine ⟨?_, ?_, ?_, ?_⟩ <;> decide
